import Mathlib

/-!
Verification of the multi-level grouping engine of `pyocr/libtesseract/__init__.py`.

The development shallowly embeds the module's data model and operations:

* `PyErr` models the Python exceptions raised by the module
  (`ValueError`, `KeyError`, `IndexError`, `TesseractError`).
* `Val` is a universal value type for the dynamically-typed node values the
  caller-supplied boxers produce and consume.
* `RawIterator` models the tesseract page/result iterator that the engine
  drives (the `tesseract_raw` wrappers are not part of the sources, so the
  iterator is modelled from the spec's Cursor contract): the iterator state is
  the current leaf position, passed explicitly.
* `MultiLevelIterator` with `get_contents`, `is_at_beginning`, `is_at_end`
  and `nested` is translated line by line from the source class.
* `nested` is instrumented with an event trace (`Ev`): each call the engine
  makes to a boxer or to a boundary predicate appends one event, so that
  ordering and "never invoked" properties can be stated.  The traversal state
  is the pair of the Python `to_box` accumulator list and the event list.
-/

/-- Python exceptions raised by the module. -/
inductive PyErr where
  | valueError
  | keyError
  | indexError
  | tesseractError (msg : String)
  deriving DecidableEq, Repr

/-- A pyocr bounding box `((x0, y0), (x1, y1))`. -/
abbrev PBox : Type := (Int × Int) × (Int × Int)

/-- A raw tesseract bounding box `(x0, y0, x1, y1)`. -/
abbrev RawBox : Type := Int × Int × Int × Int

/-- Source `_tess_box_to_pyocr_box`: repack the 4-tuple as two corner points. -/
def tess_box_to_pyocr_box (box : RawBox) : PBox :=
  ((box.1, box.2.1), (box.2.2.1, box.2.2.2))

/-- Universal value type for the dynamically typed node values: strings,
bounding boxes and lists of values (the `children` sequences). -/
inductive Val where
  | s (t : String)
  | b (box : PBox)
  | lst (l : List Val)

/-- A caller-supplied boxer: a Python function of three positional arguments. -/
abbrev Boxer : Type := Val → Val → Val → Val

/-- Source `clevel_od`: the ordered dictionary mapping level names to
tesseract `PageIteratorLevel` constants, modelled as a lookup function. -/
def clevel_od (level : String) : Option Nat :=
  if level = "block" then some 0
  else if level = "para" then some 1
  else if level = "line" then some 2
  else if level = "word" then some 3
  else if level = "symbol" then some 4
  else none

/-- Modelled from the spec: the tesseract result/page iterator (the
`tesseract_raw` module is not among the sources).  Following the spec's
Cursor contract (§4.1), the iterator is a read-only view of `numLeaves`
leaf positions; every query takes the current position explicitly and
`advance` is the only position change.  Queries at any position and any
`PageIteratorLevel` are total (the C API always returns something). -/
structure RawIterator where
  numLeaves : Nat
  text : Nat → Nat → String
  rawBox : Nat → Nat → RawBox
  atBeginningOf : Nat → Nat → Bool
  atFinalElement : Nat → Nat → Nat → Bool

/-- Modelled from the spec: `tesseract_raw.result_iterator_get_utf8_text`. -/
def result_iterator_get_utf8_text (it : RawIterator) (p cl : Nat) : String :=
  it.text p cl

/-- Modelled from the spec: `tesseract_raw.page_iterator_bounding_box`,
which returns a pair of a success flag and the raw box. -/
def page_iterator_bounding_box (it : RawIterator) (p cl : Nat) : Bool × RawBox :=
  (true, it.rawBox p cl)

/-- Modelled from the spec: `tesseract_raw.page_iterator_is_at_beginning_of`. -/
def page_iterator_is_at_beginning_of (it : RawIterator) (p cl : Nat) : Bool :=
  it.atBeginningOf p cl

/-- Modelled from the spec: `tesseract_raw.page_iterator_is_at_final_element`. -/
def page_iterator_is_at_final_element (it : RawIterator) (p cl cl' : Nat) : Bool :=
  it.atFinalElement p cl cl'

/-- Modelled from the spec: `tesseract_raw.page_iterator_next` advances from
position `p`; it returns `true` exactly when another leaf exists (spec §4.1:
`advance()` "returns false ... when the stream is exhausted").  The level
argument is the `PageIteratorLevel` the source passes. -/
def page_iterator_next (it : RawIterator) (p : Nat) (_cl : Nat) : Bool :=
  decide (p + 1 < it.numLeaves)

/-- The source class `MultiLevelIterator`: level list (coarsest first),
boxer list, the cached base (finest) level and boxer, and the iterator. -/
structure MultiLevelIterator where
  levels : List String
  boxers : List Boxer
  base_level : String
  base_boxer : Boxer
  iterator : RawIterator

/-- Source `MultiLevelIterator.__init__`: stores the arguments and reads
`levels[-1]` and `boxers[-1]`; on an empty list Python raises `IndexError`
(`levels[-1]` is evaluated first).  No other validation is performed. -/
def MultiLevelIterator.init (levels : List String) (boxers : List Boxer)
    (iterator : RawIterator) : Except PyErr MultiLevelIterator :=
  match levels.getLast?, boxers.getLast? with
  | none, _ => .error PyErr.indexError
  | some _, none => .error PyErr.indexError
  | some bl, some bb =>
      .ok { levels := levels, boxers := boxers, base_level := bl,
            base_boxer := bb, iterator := iterator }

/-- Source `MultiLevelIterator.get_contents`: looks the level up in
`clevel_od` (a `KeyError` if the name is not canonical — note: no check
against `self.levels`), then reads the utf8 text twice — the `confidence`
component is obtained from the same text accessor — and the bounding box. -/
def MultiLevelIterator.get_contents (m : MultiLevelIterator) (p : Nat)
    (level : String) : Except PyErr (String × String × PBox) :=
  match clevel_od level with
  | none => .error PyErr.keyError
  | some cl =>
      let text := result_iterator_get_utf8_text m.iterator p cl
      let confidence := result_iterator_get_utf8_text m.iterator p cl
      let box := (page_iterator_bounding_box m.iterator p cl).2
      .ok (text, confidence, tess_box_to_pyocr_box box)

/-- Source `MultiLevelIterator.is_at_beginning`: raises `ValueError` for a
level not in `self.levels`, otherwise queries the page iterator (the
`clevel_od` lookup can still raise `KeyError` for a non-canonical name). -/
def MultiLevelIterator.is_at_beginning (m : MultiLevelIterator) (p : Nat)
    (level : String) : Except PyErr Bool :=
  if level ∉ m.levels then .error PyErr.valueError
  else match clevel_od level with
    | none => .error PyErr.keyError
    | some cl => .ok (page_iterator_is_at_beginning_of m.iterator p cl)

/-- Source `MultiLevelIterator.is_at_end`: raises `ValueError` if either
level is not in `self.levels`, otherwise queries the page iterator. -/
def MultiLevelIterator.is_at_end (m : MultiLevelIterator) (p : Nat)
    (level lower_level : String) : Except PyErr Bool :=
  if level ∉ m.levels ∨ lower_level ∉ m.levels then .error PyErr.valueError
  else match clevel_od level, clevel_od lower_level with
    | some cl, some cl' =>
        .ok (page_iterator_is_at_final_element m.iterator p cl cl')
    | _, _ => .error PyErr.keyError

/-- Trace events: one per boxer invocation or boundary-predicate query made
by `nested`.  `baseCall` records the base-boxer call and its arguments,
`coarseCall` the coarse-boxer call `boxer(to_box[i+1], c, p)` and its
arguments, `startCheck`/`endCheck` the predicate queries and their results. -/
inductive Ev where
  | baseCall (p : Nat) (t c : String) (pos : PBox)
  | startCheck (p : Nat) (level : String) (r : Bool)
  | endCheck (p : Nat) (level lower : String) (r : Bool)
  | coarseCall (p : Nat) (level : String) (children : List Val) (c : String) (pos : PBox)

/-- The shape of a trace event, forgetting positions, results and values. -/
inductive EvK where
  | baseK
  | startK (level : String)
  | endK (level lower : String)
  | coarseK (level : String)
  deriving DecidableEq, Repr

/-- Event shape of an event. -/
def evKind : Ev → EvK
  | .baseCall .. => .baseK
  | .startCheck _ level _ => .startK level
  | .endCheck _ level lower _ => .endK level lower
  | .coarseCall _ level .. => .coarseK level

/-- One iteration `i` of the inner `for i in range(len(self.levels))` loop of
`MultiLevelIterator.nested`, at leaf position `p`, acting on the state
`(to_box, events)`.  Faithful to the source: the base level appends
`boxer(*self.get_contents(level))` to `to_box[i]`; any other level first
checks `is_at_beginning(level)` (resetting `to_box[i+1]`), then
`is_at_end(level, lower_level)` (appending `boxer(to_box[i+1], c, p)` to
`to_box[i]`, where `(t, c, p)` is `get_contents(level)`). -/
def processLevel (m : MultiLevelIterator) (p : Nat)
    (st : List (List Val) × List Ev) (i : Nat) :
    Except PyErr (List (List Val) × List Ev) :=
  let toBox := st.1
  let evs := st.2
  let level := m.levels.getD i ""
  let boxer := m.boxers.getD i (fun v _ _ => v)
  if level = m.base_level then
    match m.get_contents p level with
    | .error e => .error e
    | .ok (t, c, pos) =>
        .ok (toBox.set i (toBox.getD i [] ++ [boxer (Val.s t) (Val.s c) (Val.b pos)]),
             evs ++ [Ev.baseCall p t c pos])
  else
    let lower := m.levels.getD (i + 1) ""
    match m.is_at_beginning p level with
    | .error e => .error e
    | .ok bStart =>
        let toBox := if bStart then toBox.set (i + 1) [] else toBox
        let evs := evs ++ [Ev.startCheck p level bStart]
        match m.is_at_end p level lower with
        | .error e => .error e
        | .ok bEnd =>
            let evs := evs ++ [Ev.endCheck p level lower bEnd]
            if bEnd then
              match m.get_contents p level with
              | .error e => .error e
              | .ok (_t, c, pos) =>
                  .ok (toBox.set i
                        (toBox.getD i []
                          ++ [boxer (Val.lst (toBox.getD (i + 1) [])) (Val.s c) (Val.b pos)]),
                       evs ++ [Ev.coarseCall p level (toBox.getD (i + 1) []) c pos])
            else .ok (toBox, evs)

/-- The body of the `while True` loop of `nested` at one leaf position:
`for i in range(len(self.levels)): ...`. -/
def processLeaf (m : MultiLevelIterator) (p : Nat)
    (st : List (List Val) × List Ev) :
    Except PyErr (List (List Val) × List Ev) :=
  (List.range m.levels.length).foldlM (processLevel m p) st

/-- The `while True` loop of `nested`: process the current leaf, then
`self.next()` — which looks up `clevel_od[self.base_level]` and calls
`page_iterator_next`, breaking the loop (`StopIteration`) when it returns
false.  `fuel` bounds the recursion; since each advance needs
`p + 1 < numLeaves` and `p` increases by one per iteration, any
`fuel ≥ numLeaves` is never exhausted, so the loop semantics are exact. -/
def nestedLoop (m : MultiLevelIterator) :
    Nat → Nat → List (List Val) × List Ev →
    Except PyErr (List (List Val) × List Ev)
  | fuel, p, st =>
    match processLeaf m p st with
    | .error e => .error e
    | .ok st' =>
        match clevel_od m.base_level with
        | none => .error PyErr.keyError
        | some cl =>
            if page_iterator_next m.iterator p cl then
              match fuel with
              | 0 => .ok st'
              | fuel' + 1 => nestedLoop m fuel' (p + 1) st'
            else .ok st'

/-- Source `MultiLevelIterator.nested` together with its event trace: run
the loop from position 0 on accumulators `[list() for l in self.levels]`. -/
def MultiLevelIterator.nestedFull (m : MultiLevelIterator) :
    Except PyErr (List (List Val) × List Ev) :=
  nestedLoop m m.iterator.numLeaves 0 (m.levels.map (fun _ => []), [])

/-- Source `MultiLevelIterator.nested`: the returned value `to_box[0]`. -/
def MultiLevelIterator.nested (m : MultiLevelIterator) : Except PyErr (List Val) :=
  match m.nestedFull with
  | .error e => .error e
  | .ok (toBox, _) => .ok (toBox.getD 0 [])

/-- The event trace of a run of `nested`. -/
def MultiLevelIterator.nestedEv (m : MultiLevelIterator) : Except PyErr (List Ev) :=
  match m.nestedFull with
  | .error e => .error e
  | .ok (_, evs) => .ok evs

/-! ### Decidable equality for the value type -/

mutual
/-- Decidable equality for `Val` (hand-rolled: `Val` nests `List Val`). -/
def Val.deq : (a b : Val) → Decidable (a = b)
  | .s x, .s y =>
    match decEq x y with
    | isTrue h => isTrue (by rw [h])
    | isFalse h => isFalse (by intro hc; cases hc; exact h rfl)
  | .s _, .b _ => isFalse (by intro hc; cases hc)
  | .s _, .lst _ => isFalse (by intro hc; cases hc)
  | .b _, .s _ => isFalse (by intro hc; cases hc)
  | .b x, .b y =>
    match decEq x y with
    | isTrue h => isTrue (by rw [h])
    | isFalse h => isFalse (by intro hc; cases hc; exact h rfl)
  | .b _, .lst _ => isFalse (by intro hc; cases hc)
  | .lst _, .s _ => isFalse (by intro hc; cases hc)
  | .lst _, .b _ => isFalse (by intro hc; cases hc)
  | .lst x, .lst y =>
    match Val.deqList x y with
    | isTrue h => isTrue (by rw [h])
    | isFalse h => isFalse (by intro hc; cases hc; exact h rfl)

/-- Decidable equality for lists of `Val`. -/
def Val.deqList : (a b : List Val) → Decidable (a = b)
  | [], [] => isTrue rfl
  | [], _ :: _ => isFalse (by intro hc; cases hc)
  | _ :: _, [] => isFalse (by intro hc; cases hc)
  | x :: xs, y :: ys =>
    match Val.deq x y, Val.deqList xs ys with
    | isTrue h1, isTrue h2 => isTrue (by rw [h1, h2])
    | isFalse h1, _ => isFalse (by intro hc; injection hc with h _; exact h1 h)
    | _, isFalse h2 => isFalse (by intro hc; injection hc with _ h; exact h2 h)
end

instance : DecidableEq Val := Val.deq

instance : DecidableEq (List Val) := Val.deqList

instance {ε α : Type} [DecidableEq ε] [DecidableEq α] : DecidableEq (Except ε α)
  | .ok a, .ok b =>
    match decEq a b with
    | isTrue h => isTrue (by rw [h])
    | isFalse h => isFalse (by intro hc; cases hc; exact h rfl)
  | .ok _, .error _ => isFalse (by intro hc; cases hc)
  | .error _, .ok _ => isFalse (by intro hc; cases hc)
  | .error a, .error b =>
    match decEq a b with
    | isTrue h => isTrue (by rw [h])
    | isFalse h => isFalse (by intro hc; cases hc; exact h rfl)

/-! ### Observations on trees and cursors -/

mutual
/-- Depth-first concatenation of the string leaves of a node tree. -/
def dfTexts : Val → List String
  | .s t => [t]
  | .b _ => []
  | .lst l => dfTextsList l

/-- Depth-first concatenation over a list of node trees, in order. -/
def dfTextsList : List Val → List String
  | [] => []
  | v :: vs => dfTexts v ++ dfTextsList vs
end

/-- The in-order sequence of leaf contents produced by the cursor: the
base-level text at each leaf position, in visit order. -/
def cursorLeafTexts (m : MultiLevelIterator) : List String :=
  (List.range m.iterator.numLeaves).map
    (fun p => m.iterator.text p ((clevel_od m.base_level).getD 0))

/-! ### Validity of a level specification -/

/-- A valid `MultiLevelIterator` in the sense of the spec's LevelSpec:
a non-empty, duplicate-free list of canonical level names, one boxer per
level, with the cached base level being the last declared level (as
`__init__` sets it). -/
abbrev validMLI (m : MultiLevelIterator) : Prop :=
  m.levels ≠ [] ∧ m.levels.Nodup ∧ (∀ l ∈ m.levels, (clevel_od l).isSome) ∧
  m.levels.getLast? = some m.base_level ∧ m.boxers.length = m.levels.length

/-- The tesseract constant of the `i`-th declared level. -/
def clevelAt (m : MultiLevelIterator) (i : Nat) : Nat :=
  (clevel_od (m.levels.getD i "")).getD 0

/-- Whether, at leaf `p`, the group at the `i`-th declared level ends
(relative to the next finer declared level). -/
def endsAt (m : MultiLevelIterator) (p i : Nat) : Bool :=
  m.iterator.atFinalElement p (clevelAt m i) (clevelAt m (i + 1))

/-- The event shapes `nested` produces at leaf `p` for the non-base level of
index `i`: a group-start check, then a group-end check, then — exactly when
the group ends here — one coarse-boxer call. -/
def coarseKinds (m : MultiLevelIterator) (p i : Nat) : List EvK :=
  [EvK.startK (m.levels.getD i ""), EvK.endK (m.levels.getD i "") (m.levels.getD (i + 1) "")] ++
  (if endsAt m p i then [EvK.coarseK (m.levels.getD i "")] else [])

/-- The event shapes `nested` produces while processing one leaf position:
the non-base levels in declared (coarsest-to-finest) order, each with
start-check before end-check, and the base-boxer call last. -/
def leafKinds (m : MultiLevelIterator) (p : Nat) : List EvK :=
  ((List.range (m.levels.length - 1)).map (coarseKinds m p)).flatten ++ [EvK.baseK]

/-! ### Concrete cursors and engines for the individual claims -/

/-- A boxer recording only the group children (used as canonical group boxer). -/
def childrenBoxer : Boxer := fun ch _ _ => ch

/-- A boxer recording only the leaf text (used as canonical leaf boxer). -/
def textBoxer : Boxer := fun t _ _ => t

/-- The spec §8 scenario cursor: six word leaves, two lines; `line` group
starts at leaves 0 and 3, `line` groups end at leaves 2 and 5. -/
def c1iter : RawIterator where
  numLeaves := 6
  text := fun p _ => ["w1", "w2", "w3", "w4", "w5", "w6"].getD p ""
  rawBox := fun _ _ => (0, 0, 0, 0)
  atBeginningOf := fun p cl => decide (cl = 2 ∧ (p = 0 ∨ p = 3))
  atFinalElement := fun p cl _ => decide (cl = 2 ∧ (p = 2 ∨ p = 5))

/-- The spec §8 scenario engine: levels `["line", "word"]` with canonical
boxers that record their inputs. -/
def c1m : MultiLevelIterator where
  levels := ["line", "word"]
  boxers := [childrenBoxer, textBoxer]
  base_level := "word"
  base_boxer := textBoxer
  iterator := c1iter

/-- Intermediate traversal states of the `c1m` run, one per processed leaf. -/
def c1box : PBox := ((0, 0), (0, 0))

/-- Trace after leaf 0 of the `c1m` run. -/
def c1evs1 : List Ev :=
  [Ev.startCheck 0 "line" true, Ev.endCheck 0 "line" "word" false,
   Ev.baseCall 0 "w1" "w1" c1box]

/-- Trace after leaf 1 of the `c1m` run. -/
def c1evs2 : List Ev :=
  c1evs1 ++ [Ev.startCheck 1 "line" false, Ev.endCheck 1 "line" "word" false,
             Ev.baseCall 1 "w2" "w2" c1box]

/-- Trace after leaf 2 of the `c1m` run. -/
def c1evs3 : List Ev :=
  c1evs2 ++ [Ev.startCheck 2 "line" false, Ev.endCheck 2 "line" "word" true,
             Ev.coarseCall 2 "line" [Val.s "w1", Val.s "w2"] "w3" c1box,
             Ev.baseCall 2 "w3" "w3" c1box]

/-- Trace after leaf 3 of the `c1m` run. -/
def c1evs4 : List Ev :=
  c1evs3 ++ [Ev.startCheck 3 "line" true, Ev.endCheck 3 "line" "word" false,
             Ev.baseCall 3 "w4" "w4" c1box]

/-- Trace after leaf 4 of the `c1m` run. -/
def c1evs5 : List Ev :=
  c1evs4 ++ [Ev.startCheck 4 "line" false, Ev.endCheck 4 "line" "word" false,
             Ev.baseCall 4 "w5" "w5" c1box]

/-- Trace after leaf 5 of the `c1m` run. -/
def c1evs6 : List Ev :=
  c1evs5 ++ [Ev.startCheck 5 "line" false, Ev.endCheck 5 "line" "word" true,
             Ev.coarseCall 5 "line" [Val.s "w4", Val.s "w5"] "w6" c1box,
             Ev.baseCall 5 "w6" "w6" c1box]

/-- Whether an `Except` computation returned normally. -/
def exceptIsOk {ε α : Type} : Except ε α → Bool
  | .ok _ => true
  | .error _ => false

/-- A one-leaf cursor with constant answers, for concrete instantiations. -/
def trivIter : RawIterator where
  numLeaves := 1
  text := fun _ _ => "T"
  rawBox := fun _ _ => (1, 2, 3, 4)
  atBeginningOf := fun _ _ => false
  atFinalElement := fun _ _ _ => false

/-- A single-level engine over `trivIter`, for concrete instantiations. -/
def c4m : MultiLevelIterator where
  levels := ["word"]
  boxers := [textBoxer]
  base_level := "word"
  base_boxer := textBoxer
  iterator := trivIter

/-- A two-level engine over `trivIter` whose LevelSpec does not declare
`"block"`, for the undeclared-level claims. -/
def c8m : MultiLevelIterator where
  levels := ["line", "word"]
  boxers := [childrenBoxer, textBoxer]
  base_level := "word"
  base_boxer := textBoxer
  iterator := trivIter

/-! ### The version parser (`get_version`) -/

/-- Whether the pattern (second argument) occurs at the head of the list. -/
def matchesAt : List Char → List Char → Bool
  | _, [] => true
  | [], _ :: _ => false
  | c :: l, d :: sub => c == d && matchesAt l sub

/-- Index of the first occurrence of the pattern in the list, if any. -/
def findSubAux : List Char → List Char → Option Nat
  | [], sub => if matchesAt [] sub then some 0 else none
  | c :: t, sub =>
      if matchesAt (c :: t) sub then some 0
      else (findSubAux t sub).map (fun k => k + 1)

/-- Python `str.find`: the index of the first occurrence, or `-1`. -/
def pyFind (s sub : String) : Int :=
  match findSubAux s.toList sub.toList with
  | none => -1
  | some i => (i : Int)

/-- Python `str.split(sep)` for a single-character separator, over the
character list: splitting at every occurrence, keeping empty pieces
(so the result is never the empty list). -/
def pySplitChars (sep : Char) : List Char → List (List Char)
  | [] => [[]]
  | c :: t =>
      if c = sep then [] :: pySplitChars sep t
      else match pySplitChars sep t with
        | [] => [[c]]
        | g :: gs => (c :: g) :: gs

/-- Python `str.split(sep)` for a single-character separator. -/
def pySplit (sep : Char) (s : String) : List String :=
  (pySplitChars sep s.toList).map String.mk

/-- Python slicing `s[:i]`, including the negative-index convention:
a negative `i` counts from the end of the string. -/
def pySliceTo (s : String) (i : Int) : String :=
  if i < 0 then String.mk (s.toList.take (s.length - (-i).toNat))
  else String.mk (s.toList.take i.toNat)

/-- Python `int(s)`, modelled for the version-string use: a non-empty
all-digit string parses in base 10, anything else raises `ValueError`
(the module only ever feeds version components to `int`). -/
def pyInt (s : String) : Except PyErr Int :=
  if s.length ≠ 0 ∧ s.toList.all Char.isDigit then
    .ok (s.toList.foldl (fun acc c => acc * 10 + ((c.toNat - 48 : Nat) : Int)) 0)
  else .error PyErr.valueError

/-- The tail of source `get_version` (lines 312-318): split the version on
`"."`, parse `int(version[0])` and `int(version[1])` (an `IndexError` if
absent), and `int(version[2])` when a third component exists. -/
def parseVersionParts (version : String) : Except PyErr (Int × Int × Int) :=
  match pySplit '.' version with
  | [] => .error PyErr.indexError
  | p0 :: rest =>
      match pyInt p0 with
      | .error e => .error e
      | .ok major =>
          match rest with
          | [] => .error PyErr.indexError
          | p1 :: rest2 =>
              match pyInt p1 with
              | .error e => .error e
              | .ok minor =>
                  match rest2 with
                  | [] => .ok (major, minor, 0)
                  | p2 :: _ =>
                      match pyInt p2 with
                      | .error e => .error e
                      | .ok upd => .ok (major, minor, upd)

/-- Source `get_version` applied to the backend's raw version string: keep
the first space-separated token, then `index = version.find("dev")` and —
under Python truthiness, i.e. whenever `index != 0`, which includes the
not-found value `-1` — cut the string at `version[:index]`, then split on
`"."` and parse the numeric components. -/
def get_version (raw : String) : Except PyErr (Int × Int × Int) :=
  let version := (pySplit ' ' raw).getD 0 ""
  let index := pyFind version "dev"
  let version := if index ≠ 0 then pySliceTo version index else version
  parseVersionParts version

/-! ### The adapter `image_to_string` and its resource handling -/

/-- Raw-call events of one `image_to_string` run, in call order. -/
inductive REv where
  | initCall
  | setPageSegMode
  | setImage
  | recognizeCall
  | getIterator
  | getPageIterator
  | cleanupCall
  deriving DecidableEq, Repr

/-- Modelled from the spec: the backend operations `image_to_string` drives
(`tesseract_raw` is not among the sources).  Each operation either returns
normally or raises; `get_iterator` may also return `None` (`Python`'s null)
for "no recognizable content".  `page_iterator` is the page view of the
result iterator. -/
structure TessRaw where
  set_page_seg_mode : Except PyErr Unit
  set_image : Except PyErr Unit
  recognize : Except PyErr Unit
  get_iterator : Except PyErr (Option Unit)
  page_iterator : RawIterator

/-- Source `image_to_string` (lines 244-278): acquire the handle with
`init`, then inside `try:` set the page segmentation mode, set the image,
recognize, fetch the result iterator (raising `TesseractError` when it is
`None`), build the `MultiLevelIterator` and run `nested`; the `finally:`
block calls `cleanup(handle)` on every exit path.  The second component
records the raw calls performed, in order. -/
def image_to_string (tr : TessRaw) (levels : List String) (boxers : List Boxer) :
    Except PyErr (List Val) × List REv :=
  let evs := [REv.initCall]
  let bodyAndEvs : Except PyErr (List Val) × List REv :=
    match tr.set_page_seg_mode with
    | .error e => (.error e, evs ++ [REv.setPageSegMode])
    | .ok _ =>
        let evs := evs ++ [REv.setPageSegMode]
        match tr.set_image with
        | .error e => (.error e, evs ++ [REv.setImage])
        | .ok _ =>
            let evs := evs ++ [REv.setImage]
            match tr.recognize with
            | .error e => (.error e, evs ++ [REv.recognizeCall])
            | .ok _ =>
                let evs := evs ++ [REv.recognizeCall]
                match tr.get_iterator with
                | .error e => (.error e, evs ++ [REv.getIterator])
                | .ok none =>
                    (.error (PyErr.tesseractError "no script"),
                     evs ++ [REv.getIterator])
                | .ok (some _) =>
                    let evs := evs ++ [REv.getIterator, REv.getPageIterator]
                    match MultiLevelIterator.init levels boxers tr.page_iterator with
                    | .error e => (.error e, evs)
                    | .ok mli => (mli.nested, evs)
  (bodyAndEvs.1, bodyAndEvs.2 ++ [REv.cleanupCall])

/-- The C3 invariant on a single trace event: if it is a coarse-boxer call,
its second and third arguments are the text and box components of
`get_contents` at that leaf and level (for this code the confidence
component coincides with the text component). -/
def coarseArgsOk (m : MultiLevelIterator) (ev : Ev) : Prop :=
  ∀ p level ch c pos, ev = Ev.coarseCall p level ch c pos →
    m.get_contents p level = .ok (c, c, pos)

/-- The node the base boxer `f` produces from the leaf `q` read at the
tesseract level `cl`: `f(*get_contents(base))`. -/
def baseLeafNode (m : MultiLevelIterator) (f : Boxer) (cl q : Nat) : Val :=
  f (Val.s (result_iterator_get_utf8_text m.iterator q cl))
    (Val.s (result_iterator_get_utf8_text m.iterator q cl))
    (Val.b (tess_box_to_pyocr_box (page_iterator_bounding_box m.iterator q cl).2))

/-- The base-boxer call event at leaf `q` read at tesseract level `cl`. -/
def baseLeafEv (m : MultiLevelIterator) (cl q : Nat) : Ev :=
  Ev.baseCall q (result_iterator_get_utf8_text m.iterator q cl)
    (result_iterator_get_utf8_text m.iterator q cl)
    (tess_box_to_pyocr_box (page_iterator_bounding_box m.iterator q cl).2)

/-- A one-leaf cursor on which every `line` group ends immediately, so the
very first leaf already triggers a coarse-boxer call. -/
def c3iter : RawIterator where
  numLeaves := 1
  text := fun _ _ => "L"
  rawBox := fun _ _ => (5, 6, 7, 8)
  atBeginningOf := fun _ _ => false
  atFinalElement := fun _ _ _ => true

/-- A two-level engine over `c3iter`. -/
def c3m : MultiLevelIterator where
  levels := ["line", "word"]
  boxers := [childrenBoxer, textBoxer]
  base_level := "word"
  base_boxer := textBoxer
  iterator := c3iter

/-- A cursor with zero leaves (an empty stream). -/
def c5iter : RawIterator where
  numLeaves := 0
  text := fun _ _ => "E"
  rawBox := fun _ _ => (0, 0, 0, 0)
  atBeginningOf := fun _ _ => false
  atFinalElement := fun _ _ _ => false

/-- A single-level engine over the zero-leaf cursor `c5iter`. -/
def c5m : MultiLevelIterator where
  levels := ["word"]
  boxers := [textBoxer]
  base_level := "word"
  base_boxer := textBoxer
  iterator := c5iter

/-- Another cursor with zero leaves, for the single-level law. -/
def c6iter : RawIterator where
  numLeaves := 0
  text := fun _ _ => "Z"
  rawBox := fun _ _ => (0, 0, 0, 0)
  atBeginningOf := fun _ _ => false
  atFinalElement := fun _ _ _ => false

/-- A single-level engine over the zero-leaf cursor `c6iter`. -/
def c6m : MultiLevelIterator where
  levels := ["word"]
  boxers := [textBoxer]
  base_level := "word"
  base_boxer := textBoxer
  iterator := c6iter

/-! ### Theorems -/

/-- Unfolding of one loop iteration of `nested` when the stream continues:
process the current leaf, then advance. -/
theorem nestedLoop_advance (m : MultiLevelIterator) (fuel p : Nat)
    (st st' : List (List Val) × List Ev) (cl : Nat)
    (h : processLeaf m p st = .ok st') (hcl : clevel_od m.base_level = some cl)
    (hnext : p + 1 < m.iterator.numLeaves) :
    nestedLoop m (fuel + 1) p st = nestedLoop m fuel (p + 1) st' := by
  rw [nestedLoop, h, hcl]
  simp [page_iterator_next, hnext]

/-- Unfolding of the final loop iteration of `nested`: process the current
leaf, then `next()` raises `StopIteration` and the loop breaks. -/
theorem nestedLoop_stop (m : MultiLevelIterator) (fuel p : Nat)
    (st st' : List (List Val) × List Ev) (cl : Nat)
    (h : processLeaf m p st = .ok st') (hcl : clevel_od m.base_level = some cl)
    (hnext : ¬ p + 1 < m.iterator.numLeaves) :
    nestedLoop m fuel p st = .ok st' := by
  rw [nestedLoop, h, hcl]
  simp [page_iterator_next, hnext]

/-- The full six-leaf run of `c1m`, one leaf at a time. -/
theorem c1m_nestedFull :
    c1m.nestedFull = .ok ([[Val.lst [Val.s "w1", Val.s "w2"],
                            Val.lst [Val.s "w4", Val.s "w5"]],
                           [Val.s "w4", Val.s "w5", Val.s "w6"]], c1evs6) :=
  calc c1m.nestedFull
      = nestedLoop c1m 6 0 ([[], []], []) := rfl
    _ = nestedLoop c1m 5 1 ([[], [Val.s "w1"]], c1evs1) :=
        nestedLoop_advance c1m 5 0 _ _ 3 rfl rfl (by decide)
    _ = nestedLoop c1m 4 2 ([[], [Val.s "w1", Val.s "w2"]], c1evs2) :=
        nestedLoop_advance c1m 4 1 _ _ 3 rfl rfl (by decide)
    _ = nestedLoop c1m 3 3 ([[Val.lst [Val.s "w1", Val.s "w2"]],
                             [Val.s "w1", Val.s "w2", Val.s "w3"]], c1evs3) :=
        nestedLoop_advance c1m 3 2 _ _ 3 rfl rfl (by decide)
    _ = nestedLoop c1m 2 4 ([[Val.lst [Val.s "w1", Val.s "w2"]],
                             [Val.s "w4"]], c1evs4) :=
        nestedLoop_advance c1m 2 3 _ _ 3 rfl rfl (by decide)
    _ = nestedLoop c1m 1 5 ([[Val.lst [Val.s "w1", Val.s "w2"]],
                             [Val.s "w4", Val.s "w5"]], c1evs5) :=
        nestedLoop_advance c1m 1 4 _ _ 3 rfl rfl (by decide)
    _ = .ok ([[Val.lst [Val.s "w1", Val.s "w2"],
               Val.lst [Val.s "w4", Val.s "w5"]],
              [Val.s "w4", Val.s "w5", Val.s "w6"]], c1evs6) :=
        nestedLoop_stop c1m 0 5 _ _ 3 rfl rfl (by decide)

/-- C1: the order-preservation property fails on the code.  On the spec §8
scenario (six word leaves `w1..w6`; line groups 0–2 and 3–5), the cursor's
in-order leaf sequence is `w1..w6`, but the tree `nested` returns contains
only `[[w1, w2], [w4, w5]]`: each line is flushed before its closing leaf's
base node is appended, so `w3` is discarded by the next group's reset and
`w6` is left in the dropped base accumulator.  The depth-first leaf
concatenation of the result therefore differs from the cursor sequence. -/
theorem C1_order_preservation_fails_on_scenario :
    c1m.nested = .ok [Val.lst [Val.s "w1", Val.s "w2"],
                      Val.lst [Val.s "w4", Val.s "w5"]] ∧
    (c1m.nested).map dfTextsList = .ok ["w1", "w2", "w4", "w5"] ∧
    cursorLeafTexts c1m = ["w1", "w2", "w3", "w4", "w5", "w6"] ∧
    (c1m.nested).map dfTextsList ≠ .ok (cursorLeafTexts c1m) := by
  have h : c1m.nested = .ok [Val.lst [Val.s "w1", Val.s "w2"],
                             Val.lst [Val.s "w4", Val.s "w5"]] := by
    rw [MultiLevelIterator.nested, c1m_nestedFull]
    rfl
  refine ⟨h, ?_, rfl, ?_⟩
  · rw [h]; rfl
  · rw [h]; decide

/-- C4: `get_contents` obtains its confidence component from the same utf8
text accessor it uses for the text component (the source calls
`result_iterator_get_utf8_text` for both), so whenever it returns a value
the confidence component equals the text component. -/
theorem C4_confidence_equals_text (m : MultiLevelIterator) (p : Nat)
    (level : String) (t c : String) (box : PBox)
    (h : m.get_contents p level = .ok (t, c, box)) : c = t := by
  rw [MultiLevelIterator.get_contents] at h
  cases hcl : clevel_od level with
  | none => rw [hcl] at h; cases h
  | some cl =>
      rw [hcl] at h
      injection h with h'
      injection h' with h1 h2
      injection h2 with h3 h4
      rw [← h3, ← h1]

/-- Witness for C4 at a concrete engine: the confidence component returned
for `c4m` at leaf 0, level `"word"` equals the text component `"T"`. -/
theorem C4_confidence_equals_text_witness : ("T" : String) = "T" :=
  C4_confidence_equals_text c4m 0 "word" "T" "T" ((1, 2), (3, 4)) rfl

/-- C8 counterexample: the claim fails for `get_contents`.  With the
LevelSpec `["line", "word"]`, the level `"block"` is not declared, yet
`get_contents` returns a value for it instead of failing: it checks the
level name only against the canonical `clevel_od` vocabulary, never
against `self.levels`. -/
theorem C8_cex_get_contents_returns_for_undeclared_level :
    ("block" ∉ c8m.levels) ∧
    c8m.get_contents 0 "block" = .ok ("T", "T", ((1, 2), (3, 4))) := by
  exact ⟨by decide, rfl⟩

/-- C8 amended: for a level not declared in the LevelSpec,
`is_at_beginning` and `is_at_end` fail with the invalid-level error
(`ValueError`), but `get_contents` performs no declaration check: it fails
(with a `KeyError`) only when the name is outside the canonical level
vocabulary, and returns a value for any canonical level. -/
theorem C8_undeclared_level_behaviour (m : MultiLevelIterator) (p : Nat)
    (level : String) (h : level ∉ m.levels) :
    m.is_at_beginning p level = .error PyErr.valueError ∧
    (∀ lower, m.is_at_end p level lower = .error PyErr.valueError) ∧
    (∀ cl, clevel_od level = some cl →
      m.get_contents p level =
        .ok (result_iterator_get_utf8_text m.iterator p cl,
             result_iterator_get_utf8_text m.iterator p cl,
             tess_box_to_pyocr_box (page_iterator_bounding_box m.iterator p cl).2)) := by
  refine ⟨?_, ?_, ?_⟩
  · rw [MultiLevelIterator.is_at_beginning, if_pos h]
  · intro lower
    rw [MultiLevelIterator.is_at_end, if_pos (Or.inl h)]
  · intro cl hcl
    rw [MultiLevelIterator.get_contents, hcl]

/-- Witness for C8 at the concrete engine `c8m` and level `"block"`. -/
theorem C8_undeclared_level_behaviour_witness :
    c8m.is_at_beginning 0 "block" = .error PyErr.valueError ∧
    c8m.is_at_end 0 "block" "word" = .error PyErr.valueError ∧
    c8m.get_contents 0 "block" =
      .ok (result_iterator_get_utf8_text c8m.iterator 0 0,
           result_iterator_get_utf8_text c8m.iterator 0 0,
           tess_box_to_pyocr_box (page_iterator_bounding_box c8m.iterator 0 0).2) :=
  ⟨(C8_undeclared_level_behaviour c8m 0 "block" (by decide)).1,
   (C8_undeclared_level_behaviour c8m 0 "block" (by decide)).2.1 "word",
   (C8_undeclared_level_behaviour c8m 0 "block" (by decide)).2.2 0 rfl⟩

/-- C7 counterexample: constructing a `MultiLevelIterator` with a duplicated
level list succeeds — `__init__` performs no duplicate check, so no
`DuplicateLevel` error is possible. -/
theorem C7_cex_duplicate_levels_accepted :
    exceptIsOk (MultiLevelIterator.init ["line", "line"]
      [childrenBoxer, textBoxer] trivIter) = true ∧
    ¬ (["line", "line"].Nodup) := by
  exact ⟨rfl, by decide⟩

/-- C7 amended: construction fails — with a Python `IndexError` from reading
`levels[-1]` or `boxers[-1]`, not a dedicated `EmptyLevelSpec` error — when
given zero levels or zero boxers, and succeeds on any non-empty lists, in
particular on lists with duplicated level identifiers. -/
theorem C7_construction_validation :
    (∀ (boxers : List Boxer) (it : RawIterator),
      MultiLevelIterator.init [] boxers it = .error PyErr.indexError) ∧
    (∀ (levels : List String) (it : RawIterator),
      MultiLevelIterator.init levels [] it = .error PyErr.indexError) ∧
    (∀ (levels : List String) (boxers : List Boxer) (it : RawIterator),
      levels ≠ [] → boxers ≠ [] →
      exceptIsOk (MultiLevelIterator.init levels boxers it) = true) := by
  refine ⟨?_, ?_, ?_⟩
  · intro boxers it
    rfl
  · intro levels it
    rw [MultiLevelIterator.init]
    cases h : levels.getLast? <;> rfl
  · intro levels boxers it hl hb
    rw [MultiLevelIterator.init]
    cases h1 : levels.getLast? with
    | none => exact absurd (List.getLast?_eq_none_iff.mp h1) hl
    | some bl =>
        cases h2 : boxers.getLast? with
        | none => exact absurd (List.getLast?_eq_none_iff.mp h2) hb
        | some bb => rfl

/-- Witness for C7 at concrete inputs: construction succeeds on the
duplicated list `["word", "word"]` and fails on the empty list. -/
theorem C7_construction_validation_witness :
    exceptIsOk (MultiLevelIterator.init ["word", "word"]
      [textBoxer, textBoxer] trivIter) = true ∧
    MultiLevelIterator.init [] [textBoxer] trivIter = .error PyErr.indexError :=
  ⟨C7_construction_validation.2.2 ["word", "word"] [textBoxer, textBoxer]
     trivIter (List.cons_ne_nil _ _) (List.cons_ne_nil _ _),
   C7_construction_validation.1 [textBoxer] trivIter⟩

/-- C10: whenever the first space-separated token of the backend version
string does not contain `"dev"` (`find` returns `-1`, which is truthy in
Python), `get_version` slices the token with `[:-1]`, i.e. removes its final
character, before splitting on `"."` and parsing; in particular
`"3.05.02"` parses to `(3, 5, 0)` and `"3.05"` parses to `(3, 0, 0)`. -/
theorem C10_get_version_trims_last_char_without_dev :
    (∀ raw : String,
      pyFind ((pySplit ' ' raw).getD 0 "") "dev" = -1 →
      get_version raw =
        parseVersionParts (pySliceTo ((pySplit ' ' raw).getD 0 "") (-1))) ∧
    get_version "3.05.02" = .ok (3, 5, 0) ∧
    get_version "3.05" = .ok (3, 0, 0) := by
  refine ⟨?_, by decide, by decide⟩
  intro raw h
  rw [get_version]
  rw [h]
  rfl

/-- Witness for C10 at a concrete version string with a trailing token. -/
theorem C10_get_version_trims_last_char_without_dev_witness :
    get_version "3.05.02 leptonica-1.76.0" =
      parseVersionParts (pySliceTo ((pySplit ' ' "3.05.02 leptonica-1.76.0").getD 0 "") (-1)) ∧
    get_version "3.05.02 leptonica-1.76.0" = .ok (3, 5, 0) :=
  ⟨C10_get_version_trims_last_char_without_dev.1 "3.05.02 leptonica-1.76.0" (by decide),
   by decide⟩

/-- C9: on every run of `image_to_string` — whatever any backend call or
the grouping traversal returns or raises — the handle acquired by `init`
is released by exactly one `cleanup` call, which is the last call made
before the result or the error leaves the function. -/
theorem C9_cleanup_exactly_once (tr : TessRaw) (levels : List String)
    (boxers : List Boxer) :
    (image_to_string tr levels boxers).2.count REv.cleanupCall = 1 ∧
    (image_to_string tr levels boxers).2.getLast? = some REv.cleanupCall ∧
    (image_to_string tr levels boxers).2.head? = some REv.initCall := by
  rw [image_to_string]
  cases h1 : tr.set_page_seg_mode with
  | error e => simp
  | ok _ =>
      cases h2 : tr.set_image with
      | error e => simp
      | ok _ =>
          cases h3 : tr.recognize with
          | error e => simp
          | ok _ =>
              cases h4 : tr.get_iterator with
              | error e => simp
              | ok o =>
                  cases o with
                  | none => simp
                  | some u =>
                      cases h5 : MultiLevelIterator.init levels boxers tr.page_iterator with
                      | error e => simp
                      | ok mli => simp

/-- `get_contents` on a canonical level name returns the text (twice: the
source reads the confidence from the text accessor) and the repacked box. -/
theorem get_contents_ok (m : MultiLevelIterator) (p : Nat) (level : String)
    (cl : Nat) (hcl : clevel_od level = some cl) :
    m.get_contents p level =
      .ok (result_iterator_get_utf8_text m.iterator p cl,
           result_iterator_get_utf8_text m.iterator p cl,
           tess_box_to_pyocr_box (page_iterator_bounding_box m.iterator p cl).2) := by
  rw [MultiLevelIterator.get_contents, hcl]

/-- `is_at_beginning` on a declared canonical level returns the predicate. -/
theorem is_at_beginning_ok (m : MultiLevelIterator) (p : Nat) (level : String)
    (cl : Nat) (hmem : level ∈ m.levels) (hcl : clevel_od level = some cl) :
    m.is_at_beginning p level =
      .ok (page_iterator_is_at_beginning_of m.iterator p cl) := by
  rw [MultiLevelIterator.is_at_beginning, if_neg (fun h => h hmem), hcl]

/-- `is_at_end` on declared canonical levels returns the predicate. -/
theorem is_at_end_ok (m : MultiLevelIterator) (p : Nat) (level lower : String)
    (cl cl' : Nat) (hmem : level ∈ m.levels) (hmem' : lower ∈ m.levels)
    (hcl : clevel_od level = some cl) (hcl' : clevel_od lower = some cl') :
    m.is_at_end p level lower =
      .ok (page_iterator_is_at_final_element m.iterator p cl cl') := by
  rw [MultiLevelIterator.is_at_end,
      if_neg (by rintro (h | h) <;> [exact h hmem; exact h hmem']), hcl, hcl']

/-- Membership of the `i`-th declared level. -/
theorem getD_mem_of_lt (ls : List String) (i : Nat) (hi : i < ls.length) :
    ls.getD i "" ∈ ls := by
  rw [List.getD_eq_getElem?_getD, List.getElem?_eq_getElem hi]
  exact List.getElem_mem hi

/-- Processing a non-base level (index `i` with `i + 1` still in range, so
`levels[i]` differs from the cached last level by `Nodup`) checks group
start, then group end, then — exactly when the group ends — makes one
coarse-boxer call; it appends those events and touches no others. -/
theorem processLevel_coarse (m : MultiLevelIterator)
    (hnd : m.levels.Nodup)
    (hcan : ∀ l ∈ m.levels, (clevel_od l).isSome)
    (hbase : m.levels.getLast? = some m.base_level)
    (p i : Nat) (hi : i + 1 < m.levels.length)
    (st : List (List Val) × List Ev) :
    ∃ tb evs, processLevel m p st i = .ok (tb, st.2 ++ evs) ∧
      evs.map evKind = coarseKinds m p i := by
  have hlen : i < m.levels.length := by omega
  have hlen' : i + 1 < m.levels.length := hi
  have hmem : m.levels.getD i "" ∈ m.levels := getD_mem_of_lt _ _ hlen
  have hmem' : m.levels.getD (i + 1) "" ∈ m.levels := getD_mem_of_lt _ _ hlen'
  obtain ⟨cl, hcl⟩ := Option.isSome_iff_exists.mp (hcan _ hmem)
  obtain ⟨cl', hcl'⟩ := Option.isSome_iff_exists.mp (hcan _ hmem')
  have hpos : 0 < m.levels.length := by omega
  have hgetD : m.levels.getD i "" = m.levels[i] := by
    rw [List.getD_eq_getElem?_getD, List.getElem?_eq_getElem hlen]; rfl
  have hbase' : m.base_level = m.levels[m.levels.length - 1] := by
    have h1 := List.getLast?_eq_getElem? m.levels
    rw [hbase, List.getElem?_eq_getElem (by omega)] at h1
    exact Option.some_inj.mp h1
  have hne : ¬ m.levels.getD i "" = m.base_level := by
    intro heq
    rw [hgetD, hbase'] at heq
    have := (List.Nodup.getElem_inj_iff hnd).mp heq
    omega
  rw [processLevel]
  simp only [hne, if_false]
  rw [is_at_beginning_ok m p _ cl hmem hcl,
      is_at_end_ok m p _ _ cl cl' hmem hmem' hcl hcl']
  have hends : page_iterator_is_at_final_element m.iterator p cl cl' = endsAt m p i := by
    rw [endsAt, clevelAt, clevelAt, hcl, hcl']
    rfl
  cases hb : page_iterator_is_at_final_element m.iterator p cl cl' with
  | false =>
      refine ⟨?_, [Ev.startCheck p (m.levels.getD i "")
                    (page_iterator_is_at_beginning_of m.iterator p cl),
                  Ev.endCheck p (m.levels.getD i "") (m.levels.getD (i + 1) "") false],
              ?_, ?_⟩
      · exact (if page_iterator_is_at_beginning_of m.iterator p cl = true
                then st.1.set (i + 1) [] else st.1)
      · simp [List.append_assoc]
      · rw [coarseKinds, ← hends, hb]
        rfl
  | true =>
      rw [get_contents_ok m p _ cl hcl]
      refine ⟨?_, [Ev.startCheck p (m.levels.getD i "")
                    (page_iterator_is_at_beginning_of m.iterator p cl),
                  Ev.endCheck p (m.levels.getD i "") (m.levels.getD (i + 1) "") true,
                  Ev.coarseCall p (m.levels.getD i "")
                    (((if page_iterator_is_at_beginning_of m.iterator p cl = true
                        then st.1.set (i + 1) [] else st.1).getD (i + 1) []))
                    (result_iterator_get_utf8_text m.iterator p cl)
                    (tess_box_to_pyocr_box (page_iterator_bounding_box m.iterator p cl).2)],
              ?_, ?_⟩
      · exact ((if page_iterator_is_at_beginning_of m.iterator p cl = true
                  then st.1.set (i + 1) [] else st.1).set i
                ((if page_iterator_is_at_beginning_of m.iterator p cl = true
                    then st.1.set (i + 1) [] else st.1).getD i [] ++
                 [m.boxers.getD i (fun v _ _ => v)
                    (Val.lst ((if page_iterator_is_at_beginning_of m.iterator p cl = true
                                then st.1.set (i + 1) [] else st.1).getD (i + 1) []))
                    (Val.s (result_iterator_get_utf8_text m.iterator p cl))
                    (Val.b (tess_box_to_pyocr_box
                      (page_iterator_bounding_box m.iterator p cl).2))]))
      · simp [List.append_assoc]
      · rw [coarseKinds, ← hends, hb]
        rfl

/-- Processing the last level index (the base level, by `__init__`'s cached
`levels[-1]`) appends exactly one base-boxer call event. -/
theorem processLevel_base (m : MultiLevelIterator)
    (hbase : m.levels.getLast? = some m.base_level)
    (hne : m.levels ≠ [])
    (cl : Nat) (hcl : clevel_od m.base_level = some cl)
    (p : Nat) (st : List (List Val) × List Ev) :
    ∃ tb, processLevel m p st (m.levels.length - 1) =
      .ok (tb, st.2 ++ [Ev.baseCall p
            (result_iterator_get_utf8_text m.iterator p cl)
            (result_iterator_get_utf8_text m.iterator p cl)
            (tess_box_to_pyocr_box (page_iterator_bounding_box m.iterator p cl).2)]) := by
  have hpos : 0 < m.levels.length := List.length_pos.mpr hne
  have hlt : m.levels.length - 1 < m.levels.length := by omega
  have hgetD : m.levels.getD (m.levels.length - 1) "" = m.base_level := by
    have h1 := List.getLast?_eq_getElem? m.levels
    rw [hbase, List.getElem?_eq_getElem hlt] at h1
    rw [List.getD_eq_getElem?_getD, List.getElem?_eq_getElem hlt]
    exact (Option.some_inj.mp h1).symm
  rw [processLevel]
  simp only [hgetD, if_pos rfl]
  rw [get_contents_ok m p _ cl hcl]
  exact ⟨_, rfl⟩

/-- Folding `processLevel` over any list of non-base level indices
concatenates the per-index event blocks, in order. -/
theorem foldl_processLevel_coarse (m : MultiLevelIterator)
    (hnd : m.levels.Nodup)
    (hcan : ∀ l ∈ m.levels, (clevel_od l).isSome)
    (hbase : m.levels.getLast? = some m.base_level)
    (p : Nat) :
    ∀ (idxs : List Nat), (∀ i ∈ idxs, i + 1 < m.levels.length) →
    ∀ st : List (List Val) × List Ev,
    ∃ tb evs, idxs.foldlM (processLevel m p) st = .ok (tb, st.2 ++ evs) ∧
      evs.map evKind = (idxs.map (coarseKinds m p)).flatten := by
  intro idxs
  induction idxs with
  | nil =>
      intro _ st
      exact ⟨st.1, [], by simp only [List.foldlM_nil, List.append_nil]; rfl, rfl⟩
  | cons i rest ih =>
      intro hidx st
      obtain ⟨tb1, evs1, h1, hk1⟩ :=
        processLevel_coarse m hnd hcan hbase p i (hidx i (by simp)) st
      obtain ⟨tb2, evs2, h2, hk2⟩ :=
        ih (fun j hj => hidx j (by simp [hj])) (tb1, st.2 ++ evs1)
      refine ⟨tb2, evs1 ++ evs2, ?_, ?_⟩
      · rw [List.foldlM_cons, h1]
        show rest.foldlM (processLevel m p) (tb1, st.2 ++ evs1) =
          .ok (tb2, st.2 ++ (evs1 ++ evs2))
        rw [h2, List.append_assoc]
      · simp [hk1, hk2]

/-- Per-leaf processing order of `nested` (the body of the `for` loop over
all declared levels, at one leaf position): on every leaf, the engine
processes the declared levels from coarsest to finest; at each non-base
level it checks the group-start predicate, then the group-end predicate,
flushing one completed group exactly when the latter holds; the base-level
boxer call happens last.  The event list records exactly this shape. -/
theorem processLeaf_spec (m : MultiLevelIterator) (hv : validMLI m)
    (p : Nat) (st : List (List Val) × List Ev) :
    ∃ tb evs, processLeaf m p st = .ok (tb, st.2 ++ evs) ∧
      evs.map evKind = leafKinds m p := by
  obtain ⟨hne, hnd, hcan, hbase, _hlen⟩ := hv
  have hpos : 0 < m.levels.length := List.length_pos.mpr hne
  have hlt : m.levels.length - 1 < m.levels.length := by omega
  have hbase' : m.base_level = m.levels[m.levels.length - 1] := by
    have h1 := List.getLast?_eq_getElem? m.levels
    rw [hbase, List.getElem?_eq_getElem hlt] at h1
    exact Option.some_inj.mp h1
  have hmemb : m.base_level ∈ m.levels := by
    rw [hbase']; exact List.getElem_mem hlt
  obtain ⟨cl, hcl⟩ := Option.isSome_iff_exists.mp (hcan _ hmemb)
  obtain ⟨k, hk⟩ : ∃ k, m.levels.length = k + 1 := ⟨m.levels.length - 1, by omega⟩
  have hrange : List.range m.levels.length =
      List.range (m.levels.length - 1) ++ [m.levels.length - 1] := by
    rw [hk, List.range_succ, Nat.add_sub_cancel]
  obtain ⟨tb1, evs1, h1, hk1⟩ :=
    foldl_processLevel_coarse m hnd hcan hbase p
      (List.range (m.levels.length - 1))
      (fun i hi => by have := List.mem_range.mp hi; omega) st
  obtain ⟨tb2, h2⟩ := processLevel_base m hbase hne cl hcl p (tb1, st.2 ++ evs1)
  refine ⟨tb2, evs1 ++ [Ev.baseCall p
            (result_iterator_get_utf8_text m.iterator p cl)
            (result_iterator_get_utf8_text m.iterator p cl)
            (tess_box_to_pyocr_box (page_iterator_bounding_box m.iterator p cl).2)],
          ?_, ?_⟩
  · rw [processLeaf, hrange, List.foldlM_append, h1]
    show (List.foldlM (processLevel m p) (tb1, st.2 ++ evs1)
            [m.levels.length - 1]) = _
    rw [List.foldlM_cons, h2]
    show Except.ok (tb2, st.2 ++ evs1 ++ [Ev.baseCall p
            (result_iterator_get_utf8_text m.iterator p cl)
            (result_iterator_get_utf8_text m.iterator p cl)
            (tess_box_to_pyocr_box (page_iterator_bounding_box m.iterator p cl).2)]) = _
    rw [List.append_assoc]
  · rw [List.map_append, hk1, leafKinds]
    rfl

/-- C2 counterexample: on a two-level engine with one leaf and no group
boundaries, the per-leaf event shapes are start-check, end-check, and only
then the base-boxer call — the base-level leaf node is appended last, not
first as the claim states. -/
theorem C2_cex_base_append_is_last :
    (c8m.nestedEv).map (fun evs => evs.map evKind) =
      .ok [EvK.startK "line", EvK.endK "line" "word", EvK.baseK] ∧
    [EvK.startK "line", EvK.endK "line" "word", EvK.baseK].head? ≠ some EvK.baseK :=
  ⟨rfl, by decide⟩

/-- C2 amended: on every leaf position the traversal processes the declared
levels from coarsest to finest; at every non-base level it checks the
group-start predicate (resetting the child accumulator) before the
group-end predicate (flushing the completed group into this level's
accumulator); the base-level leaf node is appended last, not first; and
`nested` finally returns the coarsest-level accumulator `to_box[0]`. -/
theorem C2_per_leaf_processing_order (m : MultiLevelIterator)
    (hv : validMLI m) (p : Nat) (st : List (List Val) × List Ev) :
    (processLeaf m p st).map (fun st' => st'.2.map evKind) =
      .ok (st.2.map evKind ++ leafKinds m p) ∧
    (∀ tb evs, m.nestedFull = .ok (tb, evs) → m.nested = .ok (tb.getD 0 [])) := by
  constructor
  · obtain ⟨tb, evs, h, hk⟩ := processLeaf_spec m hv p st
    rw [h]
    show Except.ok ((st.2 ++ evs).map evKind) = _
    rw [List.map_append, hk]
  · intro tb evs h
    rw [MultiLevelIterator.nested, h]

/-- Witness for C2 at the concrete valid engine `c8m`, leaf 0. -/
theorem C2_per_leaf_processing_order_witness :
    (processLeaf c8m 0 ([[], []], [])).map (fun st' => st'.2.map evKind) =
      .ok (([] : List Ev).map evKind ++ leafKinds c8m 0) :=
  (C2_per_leaf_processing_order c8m (by decide) 0 ([[], []], [])).1

/-- The per-leaf event shape contains exactly one base-boxer call. -/
theorem leafKinds_count_base (m : MultiLevelIterator) (p : Nat) :
    (leafKinds m p).count EvK.baseK = 1 := by
  rw [leafKinds, List.count_append]
  have hz : ((List.range (m.levels.length - 1)).map (coarseKinds m p)).flatten.count
      EvK.baseK = 0 := by
    rw [List.count_eq_zero]
    intro hmem
    obtain ⟨l, hl, hx⟩ := List.mem_flatten.mp hmem
    obtain ⟨i, _hi, rfl⟩ := List.mem_map.mp hl
    rw [coarseKinds] at hx
    rcases List.mem_append.mp hx with h1 | h2
    · simp at h1
    · by_cases he : endsAt m p i = true
      · rw [if_pos he] at h2
        simp at h2
      · rw [if_neg he] at h2
        cases h2
  rw [hz]
  rfl

/-- C5 counterexample: on a cursor with zero leaves and the single-level
spec `["word"]`, the loop body still runs once at the initial position, so
`nested` returns a one-element list (not the empty sequence) and the base
boxer is invoked exactly once (not never). -/
theorem C5_cex_zero_leaves_not_empty :
    c5m.iterator.numLeaves = 0 ∧
    c5m.nested = .ok [Val.s "E"] ∧
    c5m.nested ≠ .ok [] ∧
    (c5m.nestedEv).map (fun evs => (evs.map evKind).count EvK.baseK) = .ok 1 :=
  ⟨rfl, rfl, by decide, rfl⟩

/-- C5 amended: on a cursor with zero leaves the traversal still executes
the per-leaf processing exactly once, at the initial position, before the
first `next()` breaks the loop; in particular the base boxer is invoked
exactly once (so the result is the one-leaf output of that phantom
position, not necessarily the empty sequence).  The no-content case is
instead guarded outside the engine: `image_to_string` raises before
building the engine when the backend returns no iterator. -/
theorem C5_zero_leaves_runs_once (m : MultiLevelIterator) (hv : validMLI m)
    (h0 : m.iterator.numLeaves = 0) :
    m.nestedFull = processLeaf m 0 (m.levels.map (fun _ => []), []) ∧
    (m.nestedEv).map (fun evs => (evs.map evKind).count EvK.baseK) = .ok 1 := by
  obtain ⟨hne, hnd, hcan, hbase, _hlen⟩ := hv
  have hpos : 0 < m.levels.length := List.length_pos.mpr hne
  have hlt : m.levels.length - 1 < m.levels.length := by omega
  have hbase2 : m.base_level = m.levels[m.levels.length - 1] := by
    have h1 := List.getLast?_eq_getElem? m.levels
    rw [hbase, List.getElem?_eq_getElem hlt] at h1
    exact Option.some_inj.mp h1
  have hmemb : m.base_level ∈ m.levels := by
    rw [hbase2]; exact List.getElem_mem hlt
  obtain ⟨cl, hcl⟩ := Option.isSome_iff_exists.mp (hcan _ hmemb)
  have hnext : ¬ 0 + 1 < m.iterator.numLeaves := by rw [h0]; omega
  have hfull : m.nestedFull = processLeaf m 0 (m.levels.map (fun _ => []), []) := by
    rw [MultiLevelIterator.nestedFull, h0]
    cases hpl : processLeaf m 0 (m.levels.map (fun _ => []), []) with
    | error e =>
        rw [nestedLoop, hpl]
    | ok st2 =>
        rw [nestedLoop_stop m 0 0 _ st2 cl hpl hcl hnext]
  refine ⟨hfull, ?_⟩
  obtain ⟨tb, evs, h, hk⟩ :=
    processLeaf_spec m ⟨hne, hnd, hcan, hbase, _hlen⟩ 0 (m.levels.map (fun _ => []), [])
  rw [MultiLevelIterator.nestedEv, hfull, h]
  show Except.ok ((evs.map evKind).count EvK.baseK) = Except.ok 1
  rw [hk, leafKinds_count_base]

/-- Witness for C5 at the concrete zero-leaf engine `c5m`. -/
theorem C5_zero_leaves_runs_once_witness :
    c5m.nestedFull = processLeaf c5m 0 (c5m.levels.map (fun _ => []), []) ∧
    (c5m.nestedEv).map (fun evs => (evs.map evKind).count EvK.baseK) = .ok 1 :=
  C5_zero_leaves_runs_once c5m (by decide) rfl

/-- One `processLevel` step only appends events satisfying the C3
invariant: every coarse-boxer call it records passes, as second and third
arguments, the (equal) text/confidence component and the box component of
`get_contents` at that leaf and level. -/
theorem processLevel_coarseArgs (m : MultiLevelIterator) (p : Nat)
    (st : List (List Val) × List Ev) (i : Nat)
    (st' : List (List Val) × List Ev)
    (h : processLevel m p st i = .ok st')
    (hst : ∀ ev ∈ st.2, coarseArgsOk m ev) :
    ∀ ev ∈ st'.2, coarseArgsOk m ev := by
  rw [processLevel] at h
  by_cases hb : m.levels.getD i "" = m.base_level
  · rw [if_pos hb] at h
    cases hg : m.get_contents p (m.levels.getD i "") with
    | error e => rw [hg] at h; cases h
    | ok x =>
        obtain ⟨t, c, pos⟩ := x
        rw [hg] at h
        cases h
        intro ev hev
        rcases List.mem_append.mp hev with h1 | h2
        · exact hst ev h1
        · rw [List.mem_singleton] at h2
          subst h2
          intro p' level' ch' c' pos' heq
          cases heq
  · rw [if_neg hb] at h
    cases hbg : m.is_at_beginning p (m.levels.getD i "") with
    | error e => rw [hbg] at h; cases h
    | ok bStart =>
        rw [hbg] at h
        dsimp only at h
        cases heg : m.is_at_end p (m.levels.getD i "") (m.levels.getD (i + 1) "") with
        | error e => rw [heg] at h; cases h
        | ok bEnd =>
            rw [heg] at h
            dsimp only at h
            cases bEnd with
            | false =>
                rw [if_neg Bool.false_ne_true] at h
                cases h
                intro ev hev
                rcases List.mem_append.mp hev with h1 | h2
                · rcases List.mem_append.mp h1 with h3 | h4
                  · exact hst ev h3
                  · rw [List.mem_singleton] at h4
                    subst h4
                    intro p' level' ch' c' pos' heq
                    cases heq
                · rw [List.mem_singleton] at h2
                  subst h2
                  intro p' level' ch' c' pos' heq
                  cases heq
            | true =>
                rw [if_pos rfl] at h
                cases hg : m.get_contents p (m.levels.getD i "") with
                | error e => rw [hg] at h; cases h
                | ok x =>
                    obtain ⟨t, c, pos⟩ := x
                    rw [hg] at h
                    cases h
                    intro ev hev
                    rcases List.mem_append.mp hev with h1 | h2
                    · rcases List.mem_append.mp h1 with h3 | h4
                      · rcases List.mem_append.mp h3 with h5 | h6
                        · exact hst ev h5
                        · rw [List.mem_singleton] at h6
                          subst h6
                          intro p' level' ch' c' pos' heq
                          cases heq
                      · rw [List.mem_singleton] at h4
                        subst h4
                        intro p' level' ch' c' pos' heq
                        cases heq
                    · rw [List.mem_singleton] at h2
                      subst h2
                      intro p' level' ch' c' pos' heq
                      cases heq
                      -- the coarse call: derive the components from `hg`
                      rw [MultiLevelIterator.get_contents] at hg
                      cases hcl : clevel_od (m.levels.getD i "") with
                      | none => rw [hcl] at hg; cases hg
                      | some cl =>
                          rw [hcl] at hg
                          injection hg with hg'
                          injection hg' with h1 h2'
                          injection h2' with h3 h4
                          rw [MultiLevelIterator.get_contents, hcl, ← h3, ← h4]

/-- The C3 invariant is preserved by folding `processLevel` over any index
list (the per-leaf `for` loop). -/
theorem foldlM_processLevel_coarseArgs (m : MultiLevelIterator) (p : Nat) :
    ∀ (idxs : List Nat) (st st' : List (List Val) × List Ev),
      idxs.foldlM (processLevel m p) st = .ok st' →
      (∀ ev ∈ st.2, coarseArgsOk m ev) → ∀ ev ∈ st'.2, coarseArgsOk m ev := by
  intro idxs
  induction idxs with
  | nil =>
      intro st st' h hst
      cases h
      exact hst
  | cons i rest ih =>
      intro st st' h hst
      rw [List.foldlM_cons] at h
      cases hpl : processLevel m p st i with
      | error e =>
          rw [hpl] at h
          cases h
      | ok st1 =>
          rw [hpl] at h
          exact ih st1 st' h (processLevel_coarseArgs m p st i st1 hpl hst)

/-- The C3 invariant is preserved by the whole `nested` loop. -/
theorem nestedLoop_coarseArgs (m : MultiLevelIterator) :
    ∀ (fuel p : Nat) (st st' : List (List Val) × List Ev),
      nestedLoop m fuel p st = .ok st' →
      (∀ ev ∈ st.2, coarseArgsOk m ev) → ∀ ev ∈ st'.2, coarseArgsOk m ev := by
  intro fuel
  induction fuel with
  | zero =>
      intro p st st' h hst
      rw [nestedLoop] at h
      cases hpl : processLeaf m p st with
      | error e => rw [hpl] at h; cases h
      | ok st1 =>
          rw [hpl] at h
          rw [processLeaf] at hpl
          have hst1 := foldlM_processLevel_coarseArgs m p _ st st1 hpl hst
          cases hcl : clevel_od m.base_level with
          | none => rw [hcl] at h; cases h
          | some cl =>
              rw [hcl] at h
              dsimp only at h
              by_cases hnx : page_iterator_next m.iterator p cl = true
              · rw [if_pos hnx] at h
                cases h
                exact hst1
              · rw [if_neg hnx] at h
                cases h
                exact hst1
  | succ fuel' ih =>
      intro p st st' h hst
      rw [nestedLoop] at h
      cases hpl : processLeaf m p st with
      | error e => rw [hpl] at h; cases h
      | ok st1 =>
          rw [hpl] at h
          rw [processLeaf] at hpl
          have hst1 := foldlM_processLevel_coarseArgs m p _ st st1 hpl hst
          cases hcl : clevel_od m.base_level with
          | none => rw [hcl] at h; cases h
          | some cl =>
              rw [hcl] at h
              dsimp only at h
              by_cases hnx : page_iterator_next m.iterator p cl = true
              · rw [if_pos hnx] at h
                exact ih (p + 1) st1 st' h hst1
              · rw [if_neg hnx] at h
                cases h
                exact hst1

/-- C3: whenever `nested` completes with a trace, every coarse-boxer call
event in that trace was made with second argument the text component and
third argument the bounding-box component of `get_contents` for that group
level at that leaf (the source passes the confidence slot `c`, which this
code always fills with the text; the first argument is the child-level
accumulator by construction of `processLevel`). -/
theorem C3_coarse_boxer_receives_text_and_box (m : MultiLevelIterator)
    (evs : List Ev) (h : m.nestedEv = .ok evs) (p : Nat) (level : String)
    (ch : List Val) (c : String) (pos : PBox)
    (hmem : Ev.coarseCall p level ch c pos ∈ evs) :
    m.get_contents p level = .ok (c, c, pos) := by
  rw [MultiLevelIterator.nestedEv] at h
  cases hf : m.nestedFull with
  | error e => rw [hf] at h; cases h
  | ok st' =>
      rw [hf] at h
      obtain ⟨tb, evs'⟩ := st'
      cases h
      rw [MultiLevelIterator.nestedFull] at hf
      have hall := nestedLoop_coarseArgs m m.iterator.numLeaves 0
        (m.levels.map (fun _ => []), []) (tb, evs) hf (by intro ev hev; cases hev)
      exact hall _ hmem p level ch c pos rfl

/-- Witness for C3 at the concrete engine `c3m`, whose single leaf closes a
`line` group: the coarse call for `"line"` received `"L"` and the box. -/
theorem C3_coarse_boxer_receives_text_and_box_witness :
    c3m.get_contents 0 "line" = .ok ("L", "L", ((5, 6), (7, 8))) :=
  C3_coarse_boxer_receives_text_and_box c3m
    [Ev.startCheck 0 "line" false, Ev.endCheck 0 "line" "word" true,
     Ev.coarseCall 0 "line" [] "L" ((5, 6), (7, 8)),
     Ev.baseCall 0 "L" "L" ((5, 6), (7, 8))]
    rfl 0 "line" [] "L" ((5, 6), (7, 8))
    (List.Mem.tail _ (List.Mem.tail _ (List.Mem.head _)))

/-- With a single-level spec, one per-leaf pass is exactly one base-boxer
call appended to the single accumulator. -/
theorem processLeaf_single (m : MultiLevelIterator) (L : String) (f : Boxer)
    (cl : Nat) (hL : m.levels = [L]) (hb : m.base_level = L)
    (hf : m.boxers = [f]) (hcl : clevel_od L = some cl)
    (p : Nat) (acc : List Val) (evs : List Ev) :
    processLeaf m p ([acc], evs) =
      .ok ([acc ++ [baseLeafNode m f cl p]], evs ++ [baseLeafEv m cl p]) := by
  have h1 : List.range m.levels.length = [0] := by rw [hL]; rfl
  have hgd : m.levels.getD 0 "" = L := by rw [hL]; rfl
  rw [processLeaf, h1, List.foldlM_cons, processLevel]
  dsimp only
  rw [hgd, hb, if_pos rfl, get_contents_ok m p L cl hcl, hf]
  rfl

/-- With a single-level spec, the whole loop from position `p` (still in
range, with enough fuel) appends one base node and one base call per
remaining leaf, in visit order. -/
theorem nestedLoop_single (m : MultiLevelIterator) (L : String) (f : Boxer)
    (cl : Nat) (hL : m.levels = [L]) (hb : m.base_level = L)
    (hf : m.boxers = [f]) (hcl : clevel_od L = some cl) :
    ∀ (fuel p : Nat) (acc : List Val) (evs : List Ev),
      m.iterator.numLeaves ≤ p + fuel + 1 → p < m.iterator.numLeaves →
      nestedLoop m fuel p ([acc], evs) =
        .ok ([acc ++ (List.range' p (m.iterator.numLeaves - p)).map (baseLeafNode m f cl)],
             evs ++ (List.range' p (m.iterator.numLeaves - p)).map (baseLeafEv m cl)) := by
  have hclb : clevel_od m.base_level = some cl := by rw [hb]; exact hcl
  intro fuel
  induction fuel with
  | zero =>
      intro p acc evs hle hlt
      have hn : m.iterator.numLeaves - p = 1 := by omega
      rw [nestedLoop, processLeaf_single m L f cl hL hb hf hcl p acc evs, hclb]
      dsimp only
      have hnx : ¬ page_iterator_next m.iterator p cl = true := by
        rw [page_iterator_next]
        simp only [decide_eq_true_eq]
        omega
      rw [if_neg hnx, hn]
      rfl
  | succ fuel' ih =>
      intro p acc evs hle hlt
      rw [nestedLoop, processLeaf_single m L f cl hL hb hf hcl p acc evs, hclb]
      dsimp only
      by_cases hnx : p + 1 < m.iterator.numLeaves
      · have hnxt : page_iterator_next m.iterator p cl = true := by
          rw [page_iterator_next]
          simpa using hnx
        rw [if_pos hnxt,
            ih (p + 1) (acc ++ [baseLeafNode m f cl p]) (evs ++ [baseLeafEv m cl p])
              (by omega) hnx]
        have hr : List.range' p (m.iterator.numLeaves - p) =
            p :: List.range' (p + 1) (m.iterator.numLeaves - (p + 1)) := by
          have h2 : m.iterator.numLeaves - p = (m.iterator.numLeaves - (p + 1)) + 1 := by
            omega
          rw [h2, List.range'_succ]
        rw [hr]
        simp [List.append_assoc]
      · have hnxt : ¬ page_iterator_next m.iterator p cl = true := by
          rw [page_iterator_next]
          simpa using hnx
        rw [if_neg hnxt]
        have hn : m.iterator.numLeaves - p = 1 := by omega
        rw [hn]
        rfl

/-- C6 counterexample: with the single-level spec `["word"]` and a cursor
with zero leaves, `nested` returns one node (produced at the phantom
initial position) while the claimed output — the base boxer mapped over
the (zero) leaves — is empty. -/
theorem C6_cex_zero_leaf_cursor :
    c6m.iterator.numLeaves = 0 ∧
    (c6m.nested).map List.length = .ok 1 ∧
    ((List.range c6m.iterator.numLeaves).map (baseLeafNode c6m textBoxer 3)).length = 0 :=
  ⟨rfl, rfl, rfl⟩

/-- C6 amended: for a LevelSpec containing exactly the base level and a
cursor with `n ≥ 1` leaves, `nested()` returns exactly the base boxer
applied to each leaf's `get_contents` result, in visit order, and the
trace consists of base-boxer calls only — the group-start and group-end
predicates are never consulted.  (For `n = 0` the do-while loop still
produces one node from the phantom initial position.) -/
theorem C6_single_level_law (m : MultiLevelIterator) (L : String) (f : Boxer)
    (cl : Nat) (hL : m.levels = [L]) (hb : m.base_level = L)
    (hf : m.boxers = [f]) (hcl : clevel_od L = some cl)
    (hn : 1 ≤ m.iterator.numLeaves) :
    m.nested = .ok ((List.range m.iterator.numLeaves).map (baseLeafNode m f cl)) ∧
    (m.nestedEv).map (fun evs => evs.map evKind) =
      .ok ((List.range m.iterator.numLeaves).map (fun _ => EvK.baseK)) := by
  have h := nestedLoop_single m L f cl hL hb hf hcl m.iterator.numLeaves 0 [] []
    (by omega) (by omega)
  have hfull : m.nestedFull =
      .ok ([(List.range' 0 m.iterator.numLeaves).map (baseLeafNode m f cl)],
           (List.range' 0 m.iterator.numLeaves).map (baseLeafEv m cl)) := by
    rw [MultiLevelIterator.nestedFull, hL]
    show nestedLoop m m.iterator.numLeaves 0 ([[]], []) = _
    rw [h]
    simp
  constructor
  · rw [MultiLevelIterator.nested, hfull]
    show Except.ok ((List.range' 0 m.iterator.numLeaves).map (baseLeafNode m f cl)) = _
    rw [← List.range_eq_range']
  · rw [MultiLevelIterator.nestedEv, hfull]
    show Except.ok (((List.range' 0 m.iterator.numLeaves).map (baseLeafEv m cl)).map evKind) = _
    rw [List.map_map, ← List.range_eq_range']
    exact congrArg Except.ok (List.map_congr_left (fun q _ => rfl))

/-- Witness for C6 at the concrete single-level engine `c4m` (one leaf). -/
theorem C6_single_level_law_witness :
    c4m.nested = .ok ((List.range c4m.iterator.numLeaves).map (baseLeafNode c4m textBoxer 3)) ∧
    (c4m.nestedEv).map (fun evs => evs.map evKind) =
      .ok ((List.range c4m.iterator.numLeaves).map (fun _ => EvK.baseK)) :=
  C6_single_level_law c4m "word" textBoxer 3 rfl rfl rfl rfl (by decide)
